import Mathlib

/-!
Shallow embedding of the background enrichment and notification delivery
subsystem of a note-taking PWA: the client-side summary polling loop, the
client subscription management, the service worker push handler (all
transcribed from the frontend sources), and the backend components
(summary pipeline, provider fallback chain, subscription registry,
round-robin selector, daily fanout), which are modelled from the design
document because the backend sources are not part of the snapshot.
-/

namespace Pkm

/-- The client-side read model of a note, transcribed from
`frontend/src/types/note.ts` (interface `Note`): fields `id`, `content`,
`ai_summary` (nullable), `created_at`, `updated_at`. -/
structure NoteRead where
  id : Nat
  content : String
  ai_summary : Option String
  created_at : String
  updated_at : String
deriving DecidableEq, Repr

/-- The field names of the `Note` interface in
`frontend/src/types/note.ts`, in declaration order. -/
def noteReadFields : List String :=
  ["id", "content", "ai_summary", "created_at", "updated_at"]

/-- JavaScript truthiness of the nullable `ai_summary` field as tested by
the poll loops in `NotesContext` (`if (updatedNote.ai_summary)`): `null`
and the empty string are falsy. -/
def aiSummaryTruthy (s : Option String) : Bool :=
  match s with
  | none => false
  | some t => t ≠ ""

/-- Result of one `api.get` call inside a poll loop: the fetch either
throws (the loop catches, logs and keeps polling) or yields the refreshed
note. -/
inductive FetchResult where
  | fetchError
  | fetched (note : NoteRead)
deriving Repr

/-- `maxAttempts` of `pollForSummary` in `NotesContext` (both the
`createNote` and the `updateNote` variant). -/
def maxAttempts : Nat := 10

/-- `delay` (milliseconds between attempts) of `pollForSummary` in
`NotesContext` (both variants). -/
def pollDelayMs : Nat := 2000

/-- The completion test of the `createNote` poll loop:
`if (updatedNote.ai_summary)`. -/
def createReady (n : NoteRead) : Bool :=
  aiSummaryTruthy n.ai_summary

/-- The completion test of the `updateNote` poll loop:
`if (refreshedNote.ai_summary && refreshedNote.ai_summary !== updatedNote.ai_summary)`,
where `prev` is the note returned by the update call itself. -/
def updateReady (prev : NoteRead) (n : NoteRead) : Bool :=
  aiSummaryTruthy n.ai_summary && n.ai_summary ≠ prev.ai_summary

/-- `pollForSummary` from `NotesContext`, transcribed with the sequence of
fetch outcomes abstracted as an oracle `fetch : Nat → FetchResult` (the
outcome of the attempt with index `attempts`) and the completion test
abstracted as `ready` (`createReady` for the create loop, `updateReady`
for the regenerate loop). Returns the index of the attempt that observed
the awaited summary (the loop then stops early) or `none` when the
attempt budget is exhausted (the loop returns silently; there is no error
path), paired with the number of fetches performed from this call on. -/
def pollForSummary (fetch : Nat → FetchResult) (ready : NoteRead → Bool)
    (attempts : Nat) : Option Nat × Nat :=
  if maxAttempts ≤ attempts then (none, 0)
  else
    match fetch attempts with
    | .fetched n =>
      if ready n then (some attempts, 1)
      else
        let r := pollForSummary fetch ready (attempts + 1)
        (r.1, r.2 + 1)
    | .fetchError =>
      let r := pollForSummary fetch ready (attempts + 1)
      (r.1, r.2 + 1)
termination_by maxAttempts - attempts
decreasing_by
  all_goals simp_wf
  all_goals omega

/-- The attempt with index `i` observes the awaited summary: the fetch
succeeds and the completion test holds on the fetched note. -/
def observesSummary (fetch : Nat → FetchResult) (ready : NoteRead → Bool)
    (i : Nat) : Prop :=
  ∃ n, fetch i = .fetched n ∧ ready n = true

/-- `NotificationService.unsubscribeFromNotifications` transcribed from
`frontend/src/services/notifications.ts`, with the browser state
abstracted: `swAvailable` is whether `serviceWorker` exists in
`navigator`, `current` the endpoint of the push manager's current
subscription (if any), `unsubOk` the result of
`subscription.unsubscribe()`, and `backendOk` whether the backend delete
call succeeds — a backend failure is caught and ignored, so `backendOk`
does not influence the returned value. -/
def unsubscribeFromNotifications (swAvailable : Bool)
    (current : Option String) (unsubOk : Bool) (_backendOk : Bool) : Bool :=
  if !swAvailable then false
  else
    match current with
    | none => true
    | some _ => unsubOk

/-- The notification option fields manipulated by the push event listener
in `frontend/src/sw.ts` (the nested `data.url` is flattened to `url`;
the wall-clock `data.timestamp` string is elided). `tag` is absent from
the initial `notificationData` literal, hence optional. -/
structure SWNotificationOptions where
  body : String
  icon : String
  badge : String
  url : String
  requireInteraction : Bool
  silent : Bool
  tag : Option String
deriving DecidableEq, Repr

/-- A parsed push payload (`event.data.json()` in `sw.ts`): a partial
record whose present fields override the defaults under the object
spread `{ ...notificationData, ...pushData }`. -/
structure PushData where
  body : Option String
  icon : Option String
  badge : Option String
  url : Option String
  requireInteraction : Option Bool
  silent : Option Bool
  tag : Option String
deriving DecidableEq, Repr

/-- The initial `notificationData` literal of the push event listener in
`sw.ts`. -/
def defaultNotificationData : SWNotificationOptions :=
  { body := "You have a new reminder"
    icon := "/icon-192.svg"
    badge := "/icon-192.svg"
    url := "/"
    requireInteraction := false
    silent := false
    tag := none }

/-- The spread `{ ...notificationData, ...pushData }` in `sw.ts`: fields
present in the parsed push payload override the defaults. -/
def mergePushData (base : SWNotificationOptions) (p : PushData) :
    SWNotificationOptions :=
  { body := p.body.getD base.body
    icon := p.icon.getD base.icon
    badge := p.badge.getD base.badge
    url := p.url.getD base.url
    requireInteraction := p.requireInteraction.getD base.requireInteraction
    silent := p.silent.getD base.silent
    tag := match p.tag with
      | some t => some t
      | none => base.tag }

/-- The options passed to `showNotification` in `sw.ts`:
`{ ...notificationData, tag: 'daily-note-reminder' }` — the merged data
with the `tag` field then forced to the fixed value (the tag entry
follows the spread in the object literal, so it always wins, even when
the push payload carried its own tag). `payload = none` covers both a
pushed message without data and a payload whose JSON parse threw (the
error is caught and the defaults kept). -/
def shownOptions (payload : Option PushData) : SWNotificationOptions :=
  let nd := match payload with
    | some p => mergePushData defaultNotificationData p
    | none => defaultNotificationData
  { nd with tag := some "daily-note-reminder" }

/-- The Notification API display rule the `tag` option relies on: showing
a notification whose tag matches an already visible one replaces it;
a tagless notification stacks. This models the browser the service
worker runs in, as assumed by the `// Prevents duplicate notifications`
comment in `sw.ts`. -/
def showNotification (visible : List SWNotificationOptions)
    (opts : SWNotificationOptions) : List SWNotificationOptions :=
  match opts.tag with
  | some _ => opts :: visible.filter (fun v => v.tag ≠ opts.tag)
  | none => opts :: visible

/-- One push event processed by the `sw.ts` push listener on a device
whose visible notifications are `visible`. -/
def receivePush (visible : List SWNotificationOptions)
    (payload : Option PushData) : List SWNotificationOptions :=
  showNotification visible (shownOptions payload)

/-- A sequence of push events processed on a device starting with no
visible notification. -/
def receivePushes (payloads : List (Option PushData)) :
    List SWNotificationOptions :=
  payloads.foldl receivePush []

/-- The visible notifications carrying the service worker's fixed
reminder tag. -/
def reminderNotes (visible : List SWNotificationOptions) :
    List SWNotificationOptions :=
  visible.filter (fun v => v.tag = some "daily-note-reminder")

/-- Modelled from the spec: the backend (the FastAPI `backend/` tree is
absent from the snapshot) tracks the AI-summary lifecycle of a note as
an enum, spec section 3: `summaryState` is one of Pending, Ready,
Failed. -/
inductive SummaryState where
  | Pending
  | Ready
  | Failed
deriving DecidableEq, Repr

/-- Modelled from the spec: the backend note record as seen by the
Summary Generation Pipeline (spec section 3; backend sources absent):
content text, a `contentVersion` bumped on every content edit, the
nullable summary and its state. -/
structure BNote where
  content : String
  contentVersion : Nat
  summary : Option String
  summaryState : SummaryState
deriving DecidableEq, Repr

/-- Modelled from the spec: the ephemeral `SummaryJob` of spec section 3
(backend sources absent): the content snapshot and the `contentVersion`
captured at dispatch time. -/
structure SummaryJob where
  contentSnapshot : String
  versionAtDispatch : Nat
deriving DecidableEq, Repr

/-- Modelled from the spec: the `ExhaustedFallbackError` of spec
sections 4.1 and 7 (backend sources absent): every provider failed;
carries the per-provider failure reasons as (provider name, reason)
pairs, for diagnostics. -/
structure ExhaustedFallbackError where
  reasons : List (String × String)
deriving DecidableEq, Repr

/-- Modelled from the spec: one summarization provider of the Provider
Fallback Client (spec section 4.1; the backend Gemini service is absent
from the snapshot): an identifier and its behavior on a given content —
either a summary text or a failure reason (a timeout counts as a
failure reason). -/
structure Provider where
  name : String
  behavior : String → Except String String

/-- Modelled from the spec: the fallback chain of the Provider Fallback
Client (spec section 4.1; backend sources absent): providers are
attempted in list order, each exactly once; the first success is
returned verbatim and ends the chain; if every provider fails the
result is `ExhaustedFallbackError` with the per-provider reasons in
order. The second component records the names of the providers
attempted, in order. -/
def summarizeWithTrace (providers : List Provider) (content : String) :
    Except ExhaustedFallbackError String × List String :=
  match providers with
  | [] => (.error ⟨[]⟩, [])
  | p :: rest =>
    match p.behavior content with
    | .ok s => (.ok s, [p.name])
    | .error r =>
      let rec_ := summarizeWithTrace rest content
      (match rec_.1 with
       | .ok s => .ok s
       | .error e => .error ⟨(p.name, r) :: e.reasons⟩,
       p.name :: rec_.2)

/-- Modelled from the spec: `summarize(content)` of the Provider
Fallback Client over a configured provider list (spec section 4.1;
backend sources absent). -/
def summarize (providers : List Provider) (content : String) :
    Except ExhaustedFallbackError String :=
  (summarizeWithTrace providers content).1

/-- Modelled from the spec: the commit step of the Summary Generation
Pipeline (spec section 4.2; backend sources absent). On success the
summary is persisted with `summaryState = Ready` only if the note's
current `contentVersion` still equals the version captured at dispatch;
otherwise the stale result is discarded silently and the note is left
untouched. On `ExhaustedFallbackError` the state is persisted as
Failed. The function is total and returns a plain note: no failure is
escalated to any caller. -/
def applyResult (note : BNote) (job : SummaryJob)
    (res : Except ExhaustedFallbackError String) : BNote :=
  match res with
  | .ok s =>
    if note.contentVersion = job.versionAtDispatch then
      { note with summary := some s, summaryState := .Ready }
    else note
  | .error _ => { note with summaryState := .Failed }

/-- Modelled from the spec: the state of one note under the Summary
Generation Pipeline — the persisted note plus the summary jobs still in
flight for it (spec sections 3 and 4.2; backend sources absent). -/
structure PipelineState where
  note : BNote
  inFlight : List SummaryJob
deriving DecidableEq, Repr

/-- Modelled from the spec: the events affecting one note's summary
(spec section 4.2; backend sources absent): an edit (or a regenerate
request) with new content, and the arrival of the result of an
in-flight summary job. -/
inductive PipelineEvent where
  | edit (newContent : String)
  | arrive (job : SummaryJob) (res : Except ExhaustedFallbackError String)

/-- Modelled from the spec: one transition of the pipeline state (spec
section 4.2; backend sources absent). An edit persists the new content
with `summaryState = Pending` and a bumped `contentVersion`, and
dispatches (fire-and-forget) a job capturing the content and the new
version. The arrival of a job's result removes the job from the
in-flight set and applies the version-guarded commit `applyResult`. -/
def pipelineStep (st : PipelineState) (ev : PipelineEvent) : PipelineState :=
  match ev with
  | .edit c =>
    let v := st.note.contentVersion + 1
    { note := { content := c, contentVersion := v, summary := none,
                summaryState := .Pending }
      inFlight := ⟨c, v⟩ :: st.inFlight }
  | .arrive job res =>
    { note := applyResult st.note job res
      inFlight := st.inFlight.filter (fun j => decide (j ≠ job)) }

/-- A sequence of pipeline events applied in order. -/
def pipelineRun (st : PipelineState) (evs : List PipelineEvent) :
    PipelineState :=
  evs.foldl pipelineStep st

/-- Modelled from the spec: a device push subscription row (spec
section 3 and the `push_subscriptions` schema in `README.md`: owner,
globally unique endpoint, p256dh/auth key material, optional device
label). -/
structure PushSubscription where
  ownerId : Nat
  endpoint : String
  p256dh : String
  auth : String
  deviceLabel : Option String
deriving DecidableEq, Repr

/-- The Subscription Registry's persisted state: the rows of the
`push_subscriptions` table. -/
abbrev Registry := List PushSubscription

/-- Modelled from the spec: `register` of the Subscription Registry
(spec section 4.3; the backend push router is absent from the
snapshot): idempotent upsert keyed by `endpoint` — an existing row with
the same endpoint (even under a different owner) is updated in place to
the new owner, keys and label; otherwise a new row is appended. -/
def Registry.register (reg : Registry) (sub : PushSubscription) : Registry :=
  if reg.any (fun s => s.endpoint = sub.endpoint) then
    reg.map (fun s => if s.endpoint = sub.endpoint then sub else s)
  else reg ++ [sub]

/-- Modelled from the spec: `remove(endpoint)` of the Subscription
Registry (spec section 4.3; backend sources absent): deletes by
endpoint; a no-op if the endpoint is absent. -/
def Registry.remove (reg : Registry) (endpoint : String) : Registry :=
  reg.filter (fun s => s.endpoint ≠ endpoint)

/-- Modelled from the spec: `removeIfPermanentlyInvalid(endpoint)` of
the Subscription Registry (spec section 4.3; backend sources absent),
the convenience used by the Fanout Scheduler after a permanent
transport failure. -/
def Registry.removeIfPermanentlyInvalid (reg : Registry)
    (endpoint : String) : Registry :=
  Registry.remove reg endpoint

/-- The registry operations of spec section 4.3, for reasoning about
arbitrary operation sequences. -/
inductive RegistryOp where
  | register (sub : PushSubscription)
  | remove (endpoint : String)
  | removeIfPermanentlyInvalid (endpoint : String)

/-- Apply one registry operation. -/
def Registry.applyOp (reg : Registry) (op : RegistryOp) : Registry :=
  match op with
  | .register sub => Registry.register reg sub
  | .remove e => Registry.remove reg e
  | .removeIfPermanentlyInvalid e => Registry.removeIfPermanentlyInvalid reg e

/-- Apply a sequence of registry operations in order. -/
def Registry.applyOps (reg : Registry) (ops : List RegistryOp) : Registry :=
  ops.foldl Registry.applyOp reg

/-- The number of registry rows holding a given endpoint. -/
def Registry.endpointCount (reg : Registry) (e : String) : Nat :=
  (reg.filter (fun s => s.endpoint = e)).length

/-- Modelled from the spec: the Push Delivery Transport's classification
of one send (spec section 4.5; backend sources absent): Delivered,
Expired (the push service reported the subscription gone — permanent),
or TransientError. -/
inductive SendOutcome where
  | delivered
  | expired
  | transientError
deriving DecidableEq, Repr

/-- The counters a fanout run aggregates (spec section 3, `FanoutRun`). -/
structure FanoutCounts where
  sent : Nat
  pruned : Nat
  errors : Nat
deriving DecidableEq, Repr

/-- Modelled from the spec: the handling of one subscription inside a
fanout run (spec section 4.6; the backend scheduler is absent from the
snapshot): the transport's classification drives the outcome —
Delivered is counted as sent; Expired triggers
`removeIfPermanentlyInvalid` on that subscription's endpoint and is
counted as pruned; TransientError is counted as a failure after the
retry budget. No outcome raises: every branch yields the next
accumulator, so a permanent failure is logged and counted, never
surfaced as a fanout-wide failure. -/
def fanoutStep (classify : PushSubscription → SendOutcome)
    (acc : Registry × FanoutCounts) (sub : PushSubscription) :
    Registry × FanoutCounts :=
  match classify sub with
  | .delivered => (acc.1, { acc.2 with sent := acc.2.sent + 1 })
  | .expired =>
    (Registry.removeIfPermanentlyInvalid acc.1 sub.endpoint,
     { acc.2 with pruned := acc.2.pruned + 1 })
  | .transientError => (acc.1, { acc.2 with errors := acc.2.errors + 1 })

/-- Modelled from the spec: one fanout pass over the registered
subscriptions (spec section 4.6; backend sources absent): each
subscription in the registry is sent the payload and handled per
`fanoutStep`; returns the self-healed registry and the aggregate
counts. -/
def fanoutRun (classify : PushSubscription → SendOutcome)
    (reg : Registry) : Registry × FanoutCounts :=
  reg.foldl (fanoutStep classify) (reg, ⟨0, 0, 0⟩)

/-- A calendar date, used only through `dayOfYear`. -/
structure SimpleDate where
  year : Nat
  month : Nat
  day : Nat
deriving DecidableEq, Repr

/-- Gregorian leap-year rule. -/
def isLeapYear (y : Nat) : Bool :=
  (y % 4 = 0 && y % 100 ≠ 0) || y % 400 = 0

/-- Length of month `m` (1-based) of year `y`. -/
def daysInMonth (y m : Nat) : Nat :=
  if m = 2 then (if isLeapYear y then 29 else 28)
  else if m = 4 || m = 6 || m = 9 || m = 11 then 30
  else 31

/-- The 1-based ordinal of a date within its year (January 1 is day 1),
as Python's `timetuple().tm_yday` computes it. -/
def dayOfYear (d : SimpleDate) : Nat :=
  (List.range (d.month - 1)).foldl
    (fun acc i => acc + daysInMonth d.year (i + 1)) 0 + d.day

/-- Modelled from the spec: `selectForUser(ownerId, asOfDate)` of the
Round-Robin Note Selector (spec section 4.4; the backend scheduler is
absent from the snapshot). `store` abstracts the external note store:
it yields each user's note ids ordered by the stable creation order.
The selector is a pure function: index `dayOfYear(asOfDate) mod count`
into that list, `none` when the user has no notes; no cursor or counter
is read or written anywhere. -/
def selectForUser (store : Nat → List Nat) (ownerId : Nat)
    (asOfDate : SimpleDate) : Option Nat :=
  let notes := store ownerId
  if notes.length = 0 then none
  else notes.get? (dayOfYear asOfDate % notes.length)

/-- Modelled from the spec: the read-note endpoint serializes the notes
table row (the `notes` schema in `README.md`: `id`, `content`,
`ai_summary`, timestamps; there is no summary-state column) into the
client `Note` interface of `frontend/src/types/note.ts`. The abstract
`summaryState` of the spec's data model is not part of the row, so the
serialization depends on the note only through its content and its
nullable summary. -/
def readNote (id : Nat) (note : BNote) (created updated : String) :
    NoteRead :=
  { id := id
    content := note.content
    ai_summary := note.summary
    created_at := created
    updated_at := updated }


lemma poll_stop {fetch : Nat → FetchResult} {ready : NoteRead → Bool} {a : Nat}
    (h : maxAttempts ≤ a) : pollForSummary fetch ready a = (none, 0) := by
  rw [pollForSummary]
  simp [h]

lemma poll_hit {fetch : Nat → FetchResult} {ready : NoteRead → Bool} {a : Nat}
    {n : NoteRead} (h : ¬ maxAttempts ≤ a) (hfa : fetch a = .fetched n)
    (hr : ready n = true) : pollForSummary fetch ready a = (some a, 1) := by
  rw [pollForSummary]
  simp [h, hfa, hr]

lemma poll_miss {fetch : Nat → FetchResult} {ready : NoteRead → Bool} {a : Nat}
    {n : NoteRead} (h : ¬ maxAttempts ≤ a) (hfa : fetch a = .fetched n)
    (hr : ready n = false) :
    pollForSummary fetch ready a
      = ((pollForSummary fetch ready (a + 1)).1,
         (pollForSummary fetch ready (a + 1)).2 + 1) := by
  rw [pollForSummary]
  simp [h, hfa, hr]

lemma poll_err {fetch : Nat → FetchResult} {ready : NoteRead → Bool} {a : Nat}
    (h : ¬ maxAttempts ≤ a) (hfa : fetch a = .fetchError) :
    pollForSummary fetch ready a
      = ((pollForSummary fetch ready (a + 1)).1,
         (pollForSummary fetch ready (a + 1)).2 + 1) := by
  rw [pollForSummary]
  simp [h, hfa]

lemma not_observes_of_fetched_false {fetch : Nat → FetchResult}
    {ready : NoteRead → Bool} {a : Nat} {n : NoteRead}
    (hfa : fetch a = .fetched n) (hr : ready n = false) :
    ¬ observesSummary fetch ready a := by
  rintro ⟨m, hm, hrm⟩
  rw [hfa] at hm
  cases hm
  rw [hr] at hrm
  exact Bool.false_ne_true hrm

lemma not_observes_of_fetchError {fetch : Nat → FetchResult}
    {ready : NoteRead → Bool} {a : Nat}
    (hfa : fetch a = .fetchError) : ¬ observesSummary fetch ready a := by
  rintro ⟨m, hm, -⟩
  rw [hfa] at hm
  exact FetchResult.noConfusion hm

lemma poll_snd_le_aux (fetch : Nat → FetchResult) (ready : NoteRead → Bool) :
    ∀ (k a : Nat), maxAttempts - a ≤ k →
      (pollForSummary fetch ready a).2 ≤ maxAttempts - a := by
  intro k
  induction k with
  | zero =>
    intro a h
    rw [poll_stop (by omega)]
    simp
  | succ k ih =>
    intro a h
    by_cases ha : maxAttempts ≤ a
    · rw [poll_stop ha]
      simp
    · have ih1 := ih (a + 1) (by omega)
      cases hfa : fetch a with
      | fetched n =>
        cases hr : ready n
        · rw [poll_miss ha hfa hr]
          dsimp only
          omega
        · rw [poll_hit ha hfa hr]
          dsimp only
          omega
      | fetchError =>
        rw [poll_err ha hfa]
        dsimp only
        omega

lemma poll_isSome_iff_aux (fetch : Nat → FetchResult) (ready : NoteRead → Bool) :
    ∀ (k a : Nat), maxAttempts - a ≤ k →
      ((pollForSummary fetch ready a).1.isSome = true ↔
        ∃ i, a ≤ i ∧ i < maxAttempts ∧ observesSummary fetch ready i) := by
  intro k
  induction k with
  | zero =>
    intro a h
    rw [poll_stop (by omega)]
    simp only [Option.isSome_none, Bool.false_eq_true, false_iff]
    rintro ⟨i, hi, hlt, -⟩
    omega
  | succ k ih =>
    intro a h
    by_cases ha : maxAttempts ≤ a
    · rw [poll_stop ha]
      simp only [Option.isSome_none, Bool.false_eq_true, false_iff]
      rintro ⟨i, hi, hlt, -⟩
      omega
    · have ih1 := ih (a + 1) (by omega)
      cases hfa : fetch a with
      | fetched n =>
        cases hr : ready n
        · rw [poll_miss ha hfa hr]
          dsimp only
          rw [ih1]
          constructor
          · rintro ⟨i, hi, hlt, hobs⟩
            exact ⟨i, by omega, hlt, hobs⟩
          · rintro ⟨i, hi, hlt, hobs⟩
            refine ⟨i, ?_, hlt, hobs⟩
            rcases Nat.eq_or_lt_of_le hi with rfl | h2
            · exact absurd hobs (not_observes_of_fetched_false hfa hr)
            · omega
        · rw [poll_hit ha hfa hr]
          simp only [Option.isSome_some, true_iff]
          exact ⟨a, Nat.le_refl a, by omega, n, hfa, hr⟩
      | fetchError =>
        rw [poll_err ha hfa]
        dsimp only
        rw [ih1]
        constructor
        · rintro ⟨i, hi, hlt, hobs⟩
          exact ⟨i, by omega, hlt, hobs⟩
        · rintro ⟨i, hi, hlt, hobs⟩
          refine ⟨i, ?_, hlt, hobs⟩
          rcases Nat.eq_or_lt_of_le hi with rfl | h2
          · exact absurd hobs (not_observes_of_fetchError hfa)
          · omega

lemma poll_eq_some_aux (fetch : Nat → FetchResult) (ready : NoteRead → Bool) :
    ∀ (k a i : Nat), maxAttempts - a ≤ k →
      (pollForSummary fetch ready a).1 = some i →
      a ≤ i ∧ i < maxAttempts ∧ observesSummary fetch ready i
        ∧ ∀ j, a ≤ j → j < i → ¬ observesSummary fetch ready j := by
  intro k
  induction k with
  | zero =>
    intro a i h hsome
    rw [poll_stop (by omega)] at hsome
    exact absurd hsome (by simp)
  | succ k ih =>
    intro a i h hsome
    by_cases ha : maxAttempts ≤ a
    · rw [poll_stop ha] at hsome
      exact absurd hsome (by simp)
    · cases hfa : fetch a with
      | fetched n =>
        cases hr : ready n
        · rw [poll_miss ha hfa hr] at hsome
          dsimp only at hsome
          obtain ⟨hai, hlt, hobs, hmin⟩ := ih (a + 1) i (by omega) hsome
          refine ⟨by omega, hlt, hobs, ?_⟩
          intro j haj hji
          rcases Nat.eq_or_lt_of_le haj with rfl | h2
          · exact not_observes_of_fetched_false hfa hr
          · exact hmin j (by omega) hji
        · rw [poll_hit ha hfa hr] at hsome
          dsimp only at hsome
          cases hsome
          refine ⟨Nat.le_refl a, by omega, ⟨n, hfa, hr⟩, ?_⟩
          intro j haj hji
          omega
      | fetchError =>
        rw [poll_err ha hfa] at hsome
        dsimp only at hsome
        obtain ⟨hai, hlt, hobs, hmin⟩ := ih (a + 1) i (by omega) hsome
        refine ⟨by omega, hlt, hobs, ?_⟩
        intro j haj hji
        rcases Nat.eq_or_lt_of_le haj with rfl | h2
        · exact not_observes_of_fetchError hfa
        · exact hmin j (by omega) hji

/-- C6: Bounded client polling: a poll loop started after a note create or
regenerate dispatch performs at most 10 fetch attempts (at a fixed 2000 ms
interval, the `delay` constant) and then stops silently — the loop has no
error path and fetch errors during individual attempts only consume the
budget; it stops early exactly when some attempt inside the budget
observes the awaited summary, and the attempt it stops at is the first
one that does. -/
theorem pollForSummary_bounded (fetch : Nat → FetchResult)
    (ready : NoteRead → Bool) :
    maxAttempts = 10 ∧ pollDelayMs = 2000
    ∧ (pollForSummary fetch ready 0).2 ≤ 10
    ∧ ((pollForSummary fetch ready 0).1.isSome = true
        ↔ ∃ i, i < 10 ∧ observesSummary fetch ready i)
    ∧ ∀ i, (pollForSummary fetch ready 0).1 = some i →
        i < 10 ∧ observesSummary fetch ready i
          ∧ ∀ j, j < i → ¬ observesSummary fetch ready j := by
  refine ⟨rfl, rfl, ?_, ?_, ?_⟩
  · have h := poll_snd_le_aux fetch ready maxAttempts 0 (by omega)
    simpa [maxAttempts] using h
  · rw [poll_isSome_iff_aux fetch ready maxAttempts 0 (by omega)]
    constructor
    · rintro ⟨i, -, hlt, hobs⟩
      exact ⟨i, by simpa [maxAttempts] using hlt, hobs⟩
    · rintro ⟨i, hlt, hobs⟩
      exact ⟨i, Nat.zero_le i, by simpa [maxAttempts] using hlt, hobs⟩
  · intro i hsome
    obtain ⟨-, hlt, hobs, hmin⟩ :=
      poll_eq_some_aux fetch ready maxAttempts 0 i (by omega) hsome
    exact ⟨by simpa [maxAttempts] using hlt, hobs,
      fun j hji => hmin j (Nat.zero_le j) hji⟩

/-- C6 witness: the bound evaluated with an oracle whose fetches all
throw and the create-loop completion test. -/
theorem pollForSummary_bounded_witness :
    (pollForSummary (fun _ => .fetchError) createReady 0).2 ≤ 10 :=
  (pollForSummary_bounded (fun _ => .fetchError) createReady).2.2.1


lemma applyResult_contentVersion (note : BNote) (job : SummaryJob)
    (res : Except ExhaustedFallbackError String) :
    (applyResult note job res).contentVersion = note.contentVersion := by
  cases res with
  | ok s =>
    by_cases h : note.contentVersion = job.versionAtDispatch <;>
      simp [applyResult, h]
  | error e => simp [applyResult]

lemma pipelineStep_contentVersion_le (st : PipelineState)
    (ev : PipelineEvent) :
    st.note.contentVersion ≤ (pipelineStep st ev).note.contentVersion := by
  cases ev with
  | edit c =>
    simp only [pipelineStep]
    omega
  | arrive job res =>
    simp [pipelineStep, applyResult_contentVersion]

lemma pipelineRun_contentVersion_le (st : PipelineState)
    (evs : List PipelineEvent) :
    st.note.contentVersion ≤ (pipelineRun st evs).note.contentVersion := by
  induction evs generalizing st with
  | nil => exact Nat.le_refl _
  | cons ev evs ih =>
    exact Nat.le_trans (pipelineStep_contentVersion_le st ev)
      (ih (pipelineStep st ev))

lemma applyResult_stale (note : BNote) (job : SummaryJob) (s : String)
    (h : note.contentVersion ≠ job.versionAtDispatch) :
    applyResult note job (.ok s) = note := by
  simp [applyResult, h]

/-- C1: Staleness invariant of the Summary Generation Pipeline: if a
summary job was dispatched at (or before) version v1 of a note and the
content is then edited (v1 to v2), the job's success result arriving
after the edit — after any further interleaved events — leaves the
persisted note untouched; and in general a success result changes the
persisted note only when the note's current contentVersion still equals
the contentVersion captured at dispatch time. -/
theorem summary_staleness_invariant (st : PipelineState) (c : String)
    (evs : List PipelineEvent) (job : SummaryJob) (s : String)
    (hdisp : job.versionAtDispatch ≤ st.note.contentVersion) :
    (pipelineStep (pipelineRun (pipelineStep st (.edit c)) evs)
        (.arrive job (.ok s))).note
      = (pipelineRun (pipelineStep st (.edit c)) evs).note
    ∧ ∀ (st2 : PipelineState) (job2 : SummaryJob) (s2 : String),
        (pipelineStep st2 (.arrive job2 (.ok s2))).note ≠ st2.note →
        st2.note.contentVersion = job2.versionAtDispatch := by
  constructor
  · have h1 : st.note.contentVersion + 1
        ≤ (pipelineRun (pipelineStep st (.edit c)) evs).note.contentVersion := by
      have h2 := pipelineRun_contentVersion_le (pipelineStep st (.edit c)) evs
      simpa [pipelineStep] using h2
    exact applyResult_stale _ job s (by omega)
  · intro st2 job2 s2 hne
    by_contra hv
    exact hne (applyResult_stale st2.note job2 s2 hv)

/-- C1 witness: a note at version 0 with a job dispatched at version 0
in flight is edited (version 1); the stale version-0 result then
arrives and is discarded. -/
theorem summary_staleness_invariant_witness :
    (⟨"a", 0⟩ : SummaryJob).versionAtDispatch
        ≤ (⟨⟨"a", 0, none, .Pending⟩, [⟨"a", 0⟩]⟩ : PipelineState).note.contentVersion
    ∧ (pipelineStep
          (pipelineRun
            (pipelineStep ⟨⟨"a", 0, none, .Pending⟩, [⟨"a", 0⟩]⟩ (.edit "b")) [])
          (.arrive ⟨"a", 0⟩ (.ok "stale"))).note
        = (pipelineRun
            (pipelineStep ⟨⟨"a", 0, none, .Pending⟩, [⟨"a", 0⟩]⟩ (.edit "b")) []).note :=
  ⟨by decide,
   (summary_staleness_invariant ⟨⟨"a", 0, none, .Pending⟩, [⟨"a", 0⟩]⟩ "b" []
      ⟨"a", 0⟩ "stale" (by decide)).1⟩

/-- C2: Round-Robin Note Selector correctness and determinism:
selectForUser returns none exactly when the user has no notes, otherwise
the note at position dayOfYear(asOfDate) mod count in the user's notes
in creation order; two invocations with the same user and date return
the same result, and with notes [A, B, C] and day-of-year 10 the
selector returns B. -/
theorem selectForUser_round_robin (store : Nat → List Nat) (u : Nat)
    (d : SimpleDate) :
    (selectForUser store u d = none ↔ store u = [])
    ∧ (0 < (store u).length →
        selectForUser store u d
          = (store u).get? (dayOfYear d % (store u).length))
    ∧ selectForUser store u d = selectForUser store u d
    ∧ ∀ A B C : Nat, store u = [A, B, C] → dayOfYear d = 10 →
        selectForUser store u d = some B := by
  refine ⟨?_, ?_, rfl, ?_⟩
  · constructor
    · intro h
      by_contra hne
      have hlen : (store u).length ≠ 0 := by
        simpa [List.length_eq_zero] using hne
      have hlt : dayOfYear d % (store u).length < (store u).length :=
        Nat.mod_lt _ (Nat.pos_of_ne_zero hlen)
      rw [selectForUser] at h
      simp only [if_neg hlen] at h
      rw [List.get?_eq_get hlt] at h
      exact Option.noConfusion h
    · intro h
      simp [selectForUser, h]
  · intro hpos
    have hlen : ¬ (store u).length = 0 := by omega
    simp [selectForUser, hlen]
  · intro A B C hst hd
    simp [selectForUser, hst, hd]

/-- C2 witness: a user with notes [7, 8, 9] on 2025-01-10 (day-of-year
10, index 10 mod 3 = 1) is selected note 8. -/
theorem selectForUser_round_robin_witness :
    selectForUser (fun _ => [7, 8, 9]) 0 ⟨2025, 1, 10⟩ = some 8 := by
  have h := (selectForUser_round_robin (fun _ => [7, 8, 9]) 0
      ⟨2025, 1, 10⟩).2.2.2 7 8 9 rfl (by decide)
  simpa using h

/-- C3: Provider fallback order: when every provider in the prefix
`pre` fails on the given content and provider `p` succeeds with `s`,
the fallback chain attempts exactly the providers of `pre` followed by
`p`, in list order with no same-provider retry, returns `s` verbatim,
and never invokes any provider after `p`. -/
theorem summarize_fallback_order (pre : List Provider) (p : Provider)
    (rest : List Provider) (content s : String) (rf : Provider → String)
    (hpre : ∀ q ∈ pre, q.behavior content = .error (rf q))
    (hp : p.behavior content = .ok s) :
    summarizeWithTrace (pre ++ p :: rest) content
      = (.ok s, pre.map (fun q => q.name) ++ [p.name]) := by
  induction pre with
  | nil =>
    simp [summarizeWithTrace, hp]
  | cons q pre ih =>
    have hq := hpre q (List.mem_cons_self q pre)
    have ih1 := ih (fun q' hq' => hpre q' (List.mem_cons_of_mem q hq'))
    rw [List.cons_append, summarizeWithTrace, hq, ih1]
    rfl

/-- C3 witness: provider p1 fails, p2 succeeds: the result is p2's
output verbatim and p3 is never attempted. -/
theorem summarize_fallback_order_witness :
    summarizeWithTrace
      [⟨"p1", fun _ => .error "timeout"⟩, ⟨"p2", fun _ => .ok "S"⟩,
       ⟨"p3", fun _ => .ok "X"⟩] "c"
      = (.ok "S", ["p1", "p2"]) := by
  have h := summarize_fallback_order [⟨"p1", fun _ => .error "timeout"⟩]
    ⟨"p2", fun _ => .ok "S"⟩ [⟨"p3", fun _ => .ok "X"⟩] "c" "S"
    (fun _ => "timeout")
    (by intro q hq; rw [List.mem_singleton] at hq; subst hq; rfl) rfl
  simpa using h

/-- C4: Exhausted-fallback error handling: when every provider in the
configured list fails, summarize returns ExhaustedFallbackError carrying
the per-provider failure reasons in order, and on that error the
pipeline's commit step persists summaryState = Failed, leaving every
other note field unchanged; the commit step is a total function into
note states, so the failure is not escalated to any caller. -/
theorem summarize_exhausted_marks_failed (ps : List Provider)
    (content : String) (rf : Provider → String)
    (hf : ∀ p ∈ ps, p.behavior content = .error (rf p)) :
    summarize ps content = .error ⟨ps.map (fun p => (p.name, rf p))⟩
    ∧ ∀ (note : BNote) (job : SummaryJob) (e : ExhaustedFallbackError),
        applyResult note job (.error e)
          = { note with summaryState := .Failed } := by
  constructor
  · induction ps with
    | nil => rfl
    | cons p ps ih =>
      have hp := hf p (List.mem_cons_self p ps)
      have ih1 := ih (fun q hq => hf q (List.mem_cons_of_mem p hq))
      simp only [summarize, summarizeWithTrace, hp] at ih1 ⊢
      rw [ih1]
      rfl
  · intro note job e
    rfl

/-- C4 witness: both providers fail; the error carries both
per-provider reasons. -/
theorem summarize_exhausted_marks_failed_witness :
    summarize [⟨"p1", fun _ => .error "a"⟩, ⟨"p2", fun _ => .error "b"⟩] "x"
      = .error ⟨[("p1", "a"), ("p2", "b")]⟩ := by
  have h := (summarize_exhausted_marks_failed
    [⟨"p1", fun _ => .error "a"⟩, ⟨"p2", fun _ => .error "b"⟩] "x"
    (fun p => if p.name = "p1" then "a" else "b")
    (by
      intro p hp
      rw [List.mem_cons] at hp
      rcases hp with rfl | hp
      · rfl
      · rw [List.mem_singleton] at hp
        subst hp
        rfl)).1
  simpa using h


/-- C5 counterexample: the clients' `Note` read model exposes no
`summaryState` field, and two backend notes that differ only in their
abstract summary state (Pending vs Failed, both with a null summary)
serialize to identical client reads — so a polling client cannot
distinguish Pending from Failed from a single read of the note. -/
theorem noteRead_no_summaryState :
    "summaryState" ∉ noteReadFields
    ∧ (⟨"milk", 1, none, .Pending⟩ : BNote) ≠ (⟨"milk", 1, none, .Failed⟩ : BNote)
    ∧ readNote 1 ⟨"milk", 1, none, .Pending⟩ "t0" "t1"
        = readNote 1 ⟨"milk", 1, none, .Failed⟩ "t0" "t1" :=
  ⟨by decide, by decide, by decide⟩

/-- C5 amended: the external-facing read path for notes exposes the
summary (as the nullable `ai_summary` field) but no summary-state
field; the read depends on a note only through its content and summary,
so a polling client can distinguish Ready (non-null summary) from
not-ready (null), but not Pending from Failed. -/
theorem readNote_exposes_summary_only (id : Nat) (note : BNote)
    (created updated : String) :
    (readNote id note created updated).ai_summary = note.summary
    ∧ "ai_summary" ∈ noteReadFields
    ∧ "summaryState" ∉ noteReadFields
    ∧ ∀ note2 : BNote, note.content = note2.content →
        note.summary = note2.summary →
        readNote id note created updated = readNote id note2 created updated := by
  refine ⟨rfl, by decide, by decide, ?_⟩
  intro note2 h1 h2
  simp [readNote, h1, h2]

/-- C5 witness: two backend notes agreeing on content and summary but
differing in state and version produce the same client read. -/
theorem readNote_exposes_summary_only_witness :
    readNote 2 ⟨"c", 5, some "s", .Ready⟩ "x" "y"
      = readNote 2 ⟨"c", 9, some "s", .Pending⟩ "x" "y" :=
  (readNote_exposes_summary_only 2 ⟨"c", 5, some "s", .Ready⟩ "x" "y").2.2.2
    ⟨"c", 9, some "s", .Pending⟩ rfl rfl

lemma endpointCount_eq_countP (reg : Registry) (e : String) :
    Registry.endpointCount reg e = reg.countP (fun s => s.endpoint = e) :=
  (List.countP_eq_length_filter _ _).symm

lemma endpointCount_upsert_same (reg : Registry) (sub : PushSubscription) :
    Registry.endpointCount
      (reg.map (fun s => if s.endpoint = sub.endpoint then sub else s))
      sub.endpoint
      = Registry.endpointCount reg sub.endpoint := by
  rw [endpointCount_eq_countP, endpointCount_eq_countP, List.countP_map]
  apply List.countP_congr
  intro s hs
  by_cases hc : s.endpoint = sub.endpoint
  · simp [Function.comp, hc]
  · simp [Function.comp, hc]

lemma endpointCount_upsert_other (reg : Registry) (sub : PushSubscription)
    (e : String) (hne : e ≠ sub.endpoint) :
    Registry.endpointCount
      (reg.map (fun s => if s.endpoint = sub.endpoint then sub else s)) e
      ≤ Registry.endpointCount reg e := by
  rw [endpointCount_eq_countP, endpointCount_eq_countP, List.countP_map]
  apply List.countP_mono_left
  intro s hs h
  by_cases hc : s.endpoint = sub.endpoint
  · exfalso
    simp only [Function.comp_apply, if_pos hc] at h
    exact hne (of_decide_eq_true h).symm
  · simpa [Function.comp, hc] using h

lemma endpointCount_append_single (reg : Registry) (sub : PushSubscription)
    (e : String) :
    Registry.endpointCount (reg ++ [sub]) e
      = Registry.endpointCount reg e + Registry.endpointCount [sub] e := by
  simp [Registry.endpointCount, List.filter_append]

lemma endpointCount_eq_zero_of_not_any (reg : Registry) (e : String)
    (h : reg.any (fun s => s.endpoint = e) = false) :
    Registry.endpointCount reg e = 0 := by
  rw [List.any_eq_false] at h
  unfold Registry.endpointCount
  rw [List.length_eq_zero, List.filter_eq_nil_iff]
  intro s hs
  simpa using h s hs

lemma endpointCount_remove_le (reg : Registry) (e2 e : String) :
    Registry.endpointCount (Registry.remove reg e2) e
      ≤ Registry.endpointCount reg e := by
  unfold Registry.endpointCount Registry.remove
  exact ((List.filter_sublist reg).filter _).length_le

lemma endpointCount_register_le (reg : Registry) (sub : PushSubscription)
    (h : ∀ e, Registry.endpointCount reg e ≤ 1) (e : String) :
    Registry.endpointCount (Registry.register reg sub) e ≤ 1 := by
  unfold Registry.register
  by_cases hany : reg.any (fun s => s.endpoint = sub.endpoint) = true
  · rw [if_pos hany]
    by_cases he : e = sub.endpoint
    · subst he
      rw [endpointCount_upsert_same]
      exact h sub.endpoint
    · exact Nat.le_trans (endpointCount_upsert_other reg sub e he) (h e)
  · rw [if_neg hany]
    rw [endpointCount_append_single]
    by_cases he : e = sub.endpoint
    · subst he
      rw [endpointCount_eq_zero_of_not_any reg sub.endpoint
        (Bool.eq_false_iff.mpr hany)]
      
      simp [Registry.endpointCount]
    · have h0 : Registry.endpointCount [sub] e = 0 := by
        unfold Registry.endpointCount
        rw [List.length_eq_zero, List.filter_eq_nil_iff]
        intro s hs
        rw [List.mem_singleton] at hs
        subst hs
        simpa using fun h2 => he h2.symm
      rw [h0]
      simpa using h e

lemma endpointCount_applyOp_le (reg : Registry) (op : RegistryOp)
    (h : ∀ e, Registry.endpointCount reg e ≤ 1) (e : String) :
    Registry.endpointCount (Registry.applyOp reg op) e ≤ 1 := by
  cases op with
  | register sub => exact endpointCount_register_le reg sub h e
  | remove e2 => exact Nat.le_trans (endpointCount_remove_le reg e2 e) (h e)
  | removeIfPermanentlyInvalid e2 =>
    exact Nat.le_trans (endpointCount_remove_le reg e2 e) (h e)

lemma endpointCount_applyOps_le (ops : List RegistryOp) :
    ∀ reg : Registry, (∀ e, Registry.endpointCount reg e ≤ 1) →
      ∀ e, Registry.endpointCount (Registry.applyOps reg ops) e ≤ 1 := by
  induction ops with
  | nil => intro reg h e; exact h e
  | cons op ops ih =>
    intro reg h e
    exact ih (Registry.applyOp reg op)
      (fun e2 => endpointCount_applyOp_le reg op h e2) e

lemma mem_register_self (reg : Registry) (sub : PushSubscription) :
    sub ∈ Registry.register reg sub := by
  unfold Registry.register
  by_cases hany : reg.any (fun s => s.endpoint = sub.endpoint) = true
  · rw [if_pos hany]
    rw [List.any_eq_true] at hany
    obtain ⟨s, hs, hp⟩ := hany
    have heq : (if s.endpoint = sub.endpoint then sub else s) = sub := by
      simp [of_decide_eq_true hp]
    exact List.mem_map.mpr ⟨s, hs, heq⟩
  · rw [if_neg hany]
    simp

/-- C7: Subscription Registry endpoint-uniqueness invariant: after any
sequence of register/remove/removeIfPermanentlyInvalid operations from
an empty registry, at most one subscription per endpoint is stored;
register of an endpoint that already exists — even under a different
owner — updates that row (the new subscription is in the result) and
does not grow the registry; every operation is a total function, so
nothing crashes. -/
theorem registry_endpoint_uniqueness :
    (∀ (ops : List RegistryOp) (e : String),
        Registry.endpointCount (Registry.applyOps [] ops) e ≤ 1)
    ∧ (∀ (reg : Registry) (sub : PushSubscription),
        sub ∈ Registry.register reg sub)
    ∧ ∀ (reg : Registry) (sub : PushSubscription),
        reg.any (fun s => s.endpoint = sub.endpoint) = true →
        (Registry.register reg sub).length = reg.length := by
  refine ⟨?_, mem_register_self, ?_⟩
  · intro ops e
    exact endpointCount_applyOps_le ops []
      (fun e2 => by simp [Registry.endpointCount]) e
  · intro reg sub h
    unfold Registry.register
    rw [if_pos h, List.length_map]

/-- C7 witness: re-registering the endpoint "e" under a new owner
leaves a one-row registry. -/
theorem registry_endpoint_uniqueness_witness :
    (Registry.register [⟨1, "e", "k", "a", none⟩]
        ⟨2, "e", "k2", "a2", none⟩).length = 1 := by
  have h := registry_endpoint_uniqueness.2.2 [⟨1, "e", "k", "a", none⟩]
    ⟨2, "e", "k2", "a2", none⟩ (by decide)
  simpa using h

lemma remove_remove (reg : Registry) (e : String) :
    Registry.remove (Registry.remove reg e) e = Registry.remove reg e := by
  unfold Registry.remove
  refine List.filter_eq_self.mpr ?_
  intro a ha
  exact (List.mem_filter.mp ha).2

lemma remove_absent (reg : Registry) (e : String)
    (h : ∀ s ∈ reg, s.endpoint ≠ e) : Registry.remove reg e = reg := by
  unfold Registry.remove
  exact List.filter_eq_self.mpr (fun a ha => decide_eq_true (h a ha))

/-- C8: Registry removal is idempotent: remove applied twice equals
remove applied once, removing an absent endpoint is the identity (a
successful no-op, not an error), and the client-side unsubscribe
reports success when no active subscription exists. -/
theorem registry_remove_idempotent :
    (∀ (reg : Registry) (e : String),
        Registry.remove (Registry.remove reg e) e = Registry.remove reg e)
    ∧ (∀ (reg : Registry) (e : String),
        (∀ s ∈ reg, s.endpoint ≠ e) → Registry.remove reg e = reg)
    ∧ ∀ unsubOk backendOk : Bool,
        unsubscribeFromNotifications true none unsubOk backendOk = true :=
  ⟨remove_remove, remove_absent, fun _ _ => rfl⟩

/-- C8 witness: removing the absent endpoint "y" leaves the registry
unchanged. -/
theorem registry_remove_idempotent_witness :
    Registry.remove [⟨1, "x", "k", "a", none⟩] "y"
      = [⟨1, "x", "k", "a", none⟩] :=
  registry_remove_idempotent.2.1 [⟨1, "x", "k", "a", none⟩] "y" (by decide)

lemma fanout_fold_registry (classify : PushSubscription → SendOutcome)
    (e : String) :
    ∀ (l : List PushSubscription) (r : Registry) (cnt : FanoutCounts),
      (∀ T ∈ l, classify T = .expired → T.endpoint = e) →
      (l.foldl (fanoutStep classify) (r, cnt)).1
        = if l.any (fun T => classify T = .expired) = true
          then Registry.remove r e else r := by
  intro l
  induction l with
  | nil =>
    intro r cnt h
    simp
  | cons sub l ih =>
    intro r cnt h
    have hrest := fun T hT => h T (List.mem_cons_of_mem sub hT)
    cases hc : classify sub with
    | delivered =>
      rw [List.foldl_cons]
      simp only [fanoutStep, hc]
      rw [ih r _ hrest]
      simp [List.any_cons, hc]
    | expired =>
      have he : sub.endpoint = e := h sub (List.mem_cons_self sub l) hc
      rw [List.foldl_cons]
      simp only [fanoutStep, hc]
      subst he
      rw [ih _ _ hrest]
      by_cases hany : l.any (fun T => classify T = .expired) = true
      · rw [if_pos hany, if_pos (by simp [List.any_cons, hc])]
        exact remove_remove r sub.endpoint
      · rw [if_neg hany, if_pos (by simp [List.any_cons, hc])]
        rfl
    | transientError =>
      rw [List.foldl_cons]
      simp only [fanoutStep, hc]
      rw [ih r _ hrest]
      simp [List.any_cons, hc]

lemma fanout_fold_pruned (classify : PushSubscription → SendOutcome) :
    ∀ (l : List PushSubscription) (r : Registry) (cnt : FanoutCounts),
      (l.foldl (fanoutStep classify) (r, cnt)).2.pruned
        = cnt.pruned + l.countP (fun T => classify T = .expired) := by
  intro l
  induction l with
  | nil =>
    intro r cnt
    simp
  | cons sub l ih =>
    intro r cnt
    cases hc : classify sub with
    | delivered =>
      rw [List.foldl_cons]
      simp only [fanoutStep, hc]
      rw [ih]
      simp [List.countP_cons, hc]
    | expired =>
      rw [List.foldl_cons]
      simp only [fanoutStep, hc]
      rw [ih]
      simp [List.countP_cons, hc]
      omega
    | transientError =>
      rw [List.foldl_cons]
      simp only [fanoutStep, hc]
      rw [ih]
      simp [List.countP_cons, hc]

/-- C9: Selective pruning frame property: in a fanout run where the
transport classifies the send to subscription S as a permanent failure
(Expired) and no other subscription is so classified, exactly S is
removed from the registry — every subscription with a different
endpoint, of the same user or any other, survives unchanged — and the
event is only counted in the pruned counter; the run itself is a total
function returning counts, never a fanout-wide failure. -/
theorem fanout_selective_pruning (classify : PushSubscription → SendOutcome)
    (reg : Registry) (S : PushSubscription)
    (hmem : S ∈ reg) (hexp : classify S = .expired)
    (honly : ∀ T ∈ reg, classify T = .expired → T.endpoint = S.endpoint) :
    (fanoutRun classify reg).1
      = reg.filter (fun T => T.endpoint ≠ S.endpoint)
    ∧ (fanoutRun classify reg).2.pruned
      = reg.countP (fun T => classify T = .expired) := by
  constructor
  · unfold fanoutRun
    rw [fanout_fold_registry classify S.endpoint reg reg ⟨0, 0, 0⟩ honly]
    rw [if_pos (List.any_eq_true.mpr ⟨S, hmem, decide_eq_true hexp⟩)]
    rfl
  · unfold fanoutRun
    rw [fanout_fold_pruned classify reg reg ⟨0, 0, 0⟩]
    simp

/-- C9 witness: of two subscriptions, the one whose endpoint is gone is
pruned and the other survives. -/
theorem fanout_selective_pruning_witness :
    (fanoutRun (fun s => if s.endpoint = "gone" then .expired else .delivered)
      [⟨1, "gone", "k", "a", none⟩, ⟨2, "ok", "k", "a", none⟩]).1
      = [⟨2, "ok", "k", "a", none⟩] := by
  have h := (fanout_selective_pruning
    (fun s => if s.endpoint = "gone" then .expired else .delivered)
    [⟨1, "gone", "k", "a", none⟩, ⟨2, "ok", "k", "a", none⟩]
    ⟨1, "gone", "k", "a", none⟩ (by decide) (by decide) (by decide)).1
  rw [h]
  decide

lemma shownOptions_tag (payload : Option PushData) :
    (shownOptions payload).tag = some "daily-note-reminder" := by
  cases payload <;> rfl

lemma showNotification_some (visible : List SWNotificationOptions)
    (opts : SWNotificationOptions) (t : String) (h : opts.tag = some t) :
    showNotification visible opts
      = opts :: visible.filter (fun v => v.tag ≠ opts.tag) := by
  cases htag : opts.tag with
  | none =>
    rw [htag] at h
    exact Option.noConfusion h
  | some t2 =>
    simp [showNotification, htag]

lemma filter_tag_contra (t : String) (l : List SWNotificationOptions) :
    (l.filter (fun v => v.tag ≠ some t)).filter (fun v => v.tag = some t)
      = [] := by
  induction l with
  | nil => rfl
  | cons h l ih =>
    by_cases hc : h.tag = some t
    · simp [List.filter_cons, hc, ih]
    · simp [List.filter_cons, hc, ih]

lemma reminderNotes_receivePush (visible : List SWNotificationOptions)
    (payload : Option PushData) :
    reminderNotes (receivePush visible payload) = [shownOptions payload] := by
  have htag := shownOptions_tag payload
  unfold receivePush
  rw [showNotification_some visible _ _ htag]
  unfold reminderNotes
  rw [List.filter_cons, if_pos (by simp [htag]), htag]
  rw [filter_tag_contra]

lemma reminderNotes_receivePushes_append (payloads : List (Option PushData))
    (payload : Option PushData) :
    reminderNotes (receivePushes (payloads ++ [payload]))
      = [shownOptions payload] := by
  unfold receivePushes
  rw [List.foldl_append]
  exact reminderNotes_receivePush _ payload

lemma reminderNotes_length_le (payloads : List (Option PushData)) :
    (reminderNotes (receivePushes payloads)).length ≤ 1 := by
  induction payloads using List.reverseRecOn with
  | nil => decide
  | append_singleton xs x ih =>
    rw [reminderNotes_receivePushes_append]
    exact Nat.le_refl 1

/-- C10: every notification displayed by the service worker push
handler carries the fixed tag "daily-note-reminder" (even when the push
payload carries its own tag), so on any device at most one such
notification is visible after any sequence of pushes, and the one that
is visible is the one from the latest push — a later push replaces the
earlier notification instead of stacking a duplicate. -/
theorem push_reminder_tag_replaces :
    (∀ payload, (shownOptions payload).tag = some "daily-note-reminder")
    ∧ (∀ payloads, (reminderNotes (receivePushes payloads)).length ≤ 1)
    ∧ ∀ payloads payload,
        reminderNotes (receivePushes (payloads ++ [payload]))
          = [shownOptions payload] :=
  ⟨shownOptions_tag, reminderNotes_length_le,
   fun payloads payload => reminderNotes_receivePushes_append payloads payload⟩

end Pkm
